import Mathlib

/-!
Shallow embedding of the data model and derivation helpers of
`src/shop/main/models.py` (Django models of an e-commerce shop).

Timestamps (`DateTimeField`) are embedded as `Int` (any linearly
ordered time domain works; only comparisons are used by the code).
`DecimalField` columns are embedded as `ℚ`.
-/

namespace Shop

/-- Embeds `class Discount` (models.py:83-112).  Only the columns read by
the helper methods and by `Product.available_discount` are kept;
`products`/`categories` many-to-many links are represented from the other
side (as discount lists on `Product` and `Category`). -/
structure Discount where
  name : String
  percentage : ℚ
  value : Option ℚ
  start_time : Int
  end_time : Int
  deriving Repr, DecidableEq

/-- Embeds `Discount.is_active` (models.py:107-109):
`return self.start_time <= now <= self.end_time`.  `now` (the call time
`timezone.now()`) is passed explicitly. -/
def Discount.is_active (d : Discount) (now : Int) : Bool :=
  decide (d.start_time ≤ now ∧ now ≤ d.end_time)

/-- Embeds `class DiscountCode` (models.py:115-145).  `usage_limit` is a
nullable `PositiveIntegerField` (`none` means unlimited). -/
structure DiscountCode where
  code : String
  discount : Discount
  usage_limit : Option Nat
  used_count : Nat
  valid_from : Int
  valid_to : Int
  deriving Repr, DecidableEq

/-- Embeds `DiscountCode.is_valid` (models.py:137-142):
an outer window test `valid_from <= now <= valid_to`, an inner test
`usage_limit is None or used_count < usage_limit`, returning `True` only
when both pass. -/
def DiscountCode.is_valid (c : DiscountCode) (now : Int) : Bool :=
  if decide (c.valid_from ≤ now ∧ now ≤ c.valid_to) then
    match c.usage_limit with
    | none => true
    | some l => decide (c.used_count < l)
  else false

/-- State-passing embedding of a call `c.is_valid()`: the Python method
body only reads fields, so every branch returns the receiver unchanged;
the pair is (returned boolean, receiver after the call). -/
def DiscountCode.is_valid_exec (c : DiscountCode) (now : Int) :
    Bool × DiscountCode :=
  if decide (c.valid_from ≤ now ∧ now ≤ c.valid_to) then
    match c.usage_limit with
    | none => (true, c)
    | some l => if decide (c.used_count < l) then (true, c) else (false, c)
  else (false, c)

/-- A concrete `Discount`, active on the window [10, 20]. -/
def dOct : Discount :=
  { name := "october", percentage := 10, value := none
    start_time := 10, end_time := 20 }

/-- A concrete `DiscountCode` for `dOct` whose own validity window
[30, 40] lies strictly after the discount's activity window. -/
def cLate : DiscountCode :=
  { code := "LATE", discount := dOct, usage_limit := none
    used_count := 0, valid_from := 30, valid_to := 40 }

/-- A concrete `DiscountCode` with `usage_limit = 5`, `used_count = 5`,
inside its validity window at time 0. -/
def cUsedUp : DiscountCode :=
  { code := "USEDUP", discount := dOct, usage_limit := some 5
    used_count := 5, valid_from := -5, valid_to := 5 }

/-- `cUsedUp` with `used_count = 4` instead. -/
def cAlmost : DiscountCode := { cUsedUp with code := "ALMOST", used_count := 4 }

/-- Embeds `class Review` (models.py:242-258): only the rating (1-5) and
the optional text are kept; the `product` foreign key is represented from
the other side as the `reviews` list on `Product`. -/
structure Review where
  rating : Nat
  text : String
  deriving Repr, DecidableEq

/-- Embeds `class Category` (models.py:39-60).  `parent` is a nullable
self-reference (by category id); `discounts` is the reverse side of
`Discount.categories` (`related_name='discounts'`), in the enumeration
order the database returns. -/
structure Category where
  name : String
  parent : Option Nat
  description : String
  discounts : List Discount
  deriving Repr, DecidableEq

/-- Embeds `class Product` (models.py:155-214).  `discounts` is the
reverse side of `Discount.products` (`related_name='discounts'`) and
`reviews` the reverse side of `Review.product`, each in enumeration
order. -/
structure Product where
  name : String
  slug : String
  description : String
  category : Category
  kind : String
  price : ℚ
  stock : Nat
  is_limited : Bool
  times_purchased : Nat
  discounts : List Discount
  reviews : List Review
  deriving Repr, DecidableEq

/-- The queryset filter `filter(start_time__lte=now, end_time__gte=now)`
used twice in `Product.available_discount` (models.py:209-210). -/
def activeAt (now : Int) (d : Discount) : Bool :=
  decide (d.start_time ≤ now) && decide (now ≤ d.end_time)

/-- One step of a stable descending insertion sort by `percentage`:
`d` is placed before the first element whose percentage is not strictly
greater, so elements already in the list that tie with `d` stay in
front of it. -/
def insertDesc (d : Discount) : List Discount → List Discount
  | [] => [d]
  | e :: es =>
    if d.percentage < e.percentage then e :: insertDesc d es
    else d :: e :: es

/-- Embeds `sorted(xs, key=lambda d: d.percentage, reverse=True)`
(models.py:211).  Python's `sorted` with `reverse=True` is the stable
descending sort by the key; a stable sort is unique as a function of its
input, so this insertion sort computes the same list.  In `insertDesc`
the inserted element comes earlier in the input than everything already
sorted, hence goes before equal keys — exactly stability. -/
def sortByPercentageDesc : List Discount → List Discount
  | [] => []
  | d :: ds => insertDesc d (sortByPercentageDesc ds)

/-- Embeds `Product.available_discount` (models.py:206-211): filter the
product-attached and the category-attached discounts to those active at
`now`, concatenate (product ones first, mirroring
`list(product_ds) + list(category_ds)`), sort by percentage descending,
keep at most the first element (`[:1]`). -/
def Product.available_discount (p : Product) (now : Int) : List Discount :=
  (sortByPercentageDesc
    (p.discounts.filter (activeAt now) ++
      p.category.discounts.filter (activeAt now))).take 1

/-- Embeds `product_overview` (models.py:442-448), attached to `Product`
as `overview`: the SQL `Avg('rating')` is `none` on an empty set and the
exact mean otherwise, and `avg_rating or 0` maps `None` to `0` (for a
number `v`, `v or 0` is `v`, since `0 or 0` is `0`); the second component
is `reviews.count()`. -/
def Product.overview (p : Product) : ℚ × Nat :=
  let avg_rating : Option ℚ :=
    match p.reviews with
    | [] => none
    | _ :: _ =>
      some ((p.reviews.map (fun r => (r.rating : ℚ))).sum / (p.reviews.length : ℚ))
  (avg_rating.getD 0, p.reviews.length)

/-- The first element of `d :: ds` attaining the maximal percentage (the
spec-side description of what a stable descending sort followed by
`[:1]` selects): on a tie the earlier element wins. -/
def firstMax1 (d : Discount) : List Discount → Discount
  | [] => d
  | e :: es =>
    if d.percentage < (firstMax1 e es).percentage then firstMax1 e es else d

/-- A concrete 10% discount active on [0, 100]. -/
def dTen : Discount :=
  { name := "ten", percentage := 10, value := none
    start_time := 0, end_time := 100 }

/-- A concrete 15% discount active on [0, 100]. -/
def dFifteen : Discount :=
  { name := "fifteen", percentage := 15, value := none
    start_time := 0, end_time := 100 }

/-- A second 15% discount (category side), active on [0, 100]. -/
def dFifteenCat : Discount := { dFifteen with name := "fifteen-cat" }

/-- A concrete category carrying the 15% discount `dFifteen`. -/
def catA : Category :=
  { name := "A", parent := none, description := "", discounts := [dFifteen] }

/-- A concrete product in `catA` with the 10% discount `dTen` attached
directly and reviews rated [5, 3, 4]. -/
def prodA : Product :=
  { name := "widget", slug := "widget", description := ""
    category := catA, kind := "product", price := 42
    stock := 3, is_limited := false, times_purchased := 0
    discounts := [dTen]
    reviews := [⟨5, "great"⟩, ⟨3, "ok"⟩, ⟨4, "good"⟩] }

/-- A product whose own 15% discount ties with its category's 15%
discount. -/
def prodTie : Product :=
  { prodA with
    slug := "widget-tie"
    discounts := [dFifteen]
    category := { catA with discounts := [dFifteenCat] } }

/-- Embeds a row of the `ProductLike` table (models.py:269-285): foreign
keys are represented by ids. -/
structure ProductLikeRow where
  user : Nat
  product : Nat
  created_at : Int
  deriving Repr, DecidableEq

/-- Embeds inserting a `ProductLike` row under the declared
`unique_together = ('user', 'product')` constraint (models.py:284-285):
when a row with the same (user, product) pair exists the insert raises
`IntegrityError` and the table is unchanged.  The boolean reports whether
the insert succeeded. -/
def createProductLike (s : List ProductLikeRow) (r : ProductLikeRow) :
    Bool × List ProductLikeRow :=
  if s.any (fun q => q.user == r.user && q.product == r.product) then (false, s)
  else (true, s ++ [r])

/-- Embeds deleting `ProductLike` rows matching a condition (e.g. the
`on_delete=CASCADE` rules on `ProductLike.user` / `ProductLike.product`). -/
def deleteProductLikes (s : List ProductLikeRow)
    (cond : ProductLikeRow → Bool) : List ProductLikeRow :=
  s.filter (fun r => !(cond r))

/-- The `ProductLike` table states reachable from the empty table by
inserts (constraint-checked) and deletions. -/
inductive LikeReachable : List ProductLikeRow → Prop where
  | empty : LikeReachable []
  | create (s r) : LikeReachable s → LikeReachable (createProductLike s r).2
  | delete (s cond) : LikeReachable s → LikeReachable (deleteProductLikes s cond)

/-- Embeds a row of the `CartItem` table (models.py:376-401): foreign
keys are represented by ids. -/
structure CartItemRow where
  cart : Nat
  product : Nat
  quantity : Nat
  added_at : Int
  deriving Repr, DecidableEq

/-- Embeds inserting a `CartItem` row under the declared
`unique_together = ('cart', 'product')` constraint (models.py:396-397):
a duplicate (cart, product) pair makes the insert fail with the table
unchanged. -/
def createCartItem (s : List CartItemRow) (r : CartItemRow) :
    Bool × List CartItemRow :=
  if s.any (fun q => q.cart == r.cart && q.product == r.product) then (false, s)
  else (true, s ++ [r])

/-- Embeds deleting `CartItem` rows matching a condition (cascade from
`Cart` or `Product`). -/
def deleteCartItems (s : List CartItemRow)
    (cond : CartItemRow → Bool) : List CartItemRow :=
  s.filter (fun r => !(cond r))

/-- The `CartItem` table states reachable from the empty table by
inserts (constraint-checked) and deletions. -/
inductive CartReachable : List CartItemRow → Prop where
  | empty : CartReachable []
  | create (s r) : CartReachable s → CartReachable (createCartItem s r).2
  | delete (s cond) : CartReachable s → CartReachable (deleteCartItems s cond)

/-- Embeds a row of the `Category` table (models.py:39-57) with its id;
`parent` is the nullable self-referencing foreign key. -/
structure CategoryRow where
  id : Nat
  name : String
  parent : Option Nat
  description : String
  created_at : Int
  deriving Repr, DecidableEq

/-- Embeds deleting the category with id `cid` under the
`on_delete=models.SET_NULL` declared on `Category.parent`
(models.py:51-55): the row itself is removed, and every surviving row
whose `parent` referenced it gets `parent = null`; no other column is
touched. -/
def deleteCategory (s : List CategoryRow) (cid : Nat) : List CategoryRow :=
  (s.filter (fun c => !(c.id == cid))).map
    (fun c => if c.parent = some cid then { c with parent := none } else c)

/-- A concrete `ProductLike` table holding the single pair (1, 2). -/
def likeS1 : List ProductLikeRow := [⟨1, 2, 0⟩]

/-- A concrete `CartItem` table holding the single pair (7, 2). -/
def cartS1 : List CartItemRow := [⟨7, 2, 1, 0⟩]

/-- A concrete `Category` row: category 2, child of category 1. -/
def catChild : CategoryRow := ⟨2, "child", some 1, "", 0⟩

/-- A concrete `Category` table: category 2 is a child of category 1,
category 3 is unrelated. -/
def catS1 : List CategoryRow :=
  [⟨1, "root", none, "", 0⟩, catChild, ⟨3, "other", none, "", 0⟩]

end Shop

open Shop

/-- Claim C2: `DiscountCode.is_valid` returns true iff `valid_from ≤ now ≤ valid_to`
and (`usage_limit` unset or `used_count < usage_limit`); with limit 5 and
`used_count = 5` the code is invalid, with `used_count = 4` it is valid. -/
theorem discountCode_is_valid_spec :
    (∀ (c : DiscountCode) (now : Int),
      c.is_valid now = true ↔
        (c.valid_from ≤ now ∧ now ≤ c.valid_to ∧
          (c.usage_limit = none ∨
            ∃ l, c.usage_limit = some l ∧ c.used_count < l))) ∧
    cUsedUp.is_valid 0 = false ∧ cAlmost.is_valid 0 = true := by
  refine ⟨fun c now => ?_, by decide, by decide⟩
  unfold DiscountCode.is_valid
  rcases h : c.usage_limit with _ | l <;> simp [h] <;> tauto

/-- Claim C3: `Discount.is_active` returns true iff `start_time ≤ now ≤ end_time`,
and both boundary instants of a well-formed window are included. -/
theorem discount_is_active_spec :
    (∀ (d : Discount) (now : Int),
      d.is_active now = true ↔ (d.start_time ≤ now ∧ now ≤ d.end_time)) ∧
    (∀ d : Discount, d.start_time ≤ d.end_time →
      d.is_active d.start_time = true ∧ d.is_active d.end_time = true) := by
  constructor
  · intro d now; simp [Discount.is_active]
  · intro d h
    refine ⟨?_, ?_⟩ <;> simp [Discount.is_active] <;> exact h

/-- Witness for C3 at the concrete discount `dOct` (window [10, 20]):
both boundary instants are active. -/
theorem discount_is_active_spec_witness :
    dOct.is_active dOct.start_time = true ∧
      dOct.is_active dOct.end_time = true :=
  discount_is_active_spec.2 dOct (by decide)

/-- Claim C6: a call to `DiscountCode.is_valid` leaves the code unchanged —
in particular `used_count` is not incremented — and returns the same
boolean as the pure `is_valid`. -/
theorem discountCode_is_valid_pure :
    ∀ (c : DiscountCode) (now : Int),
      (c.is_valid_exec now).2 = c ∧
      (c.is_valid_exec now).2.used_count = c.used_count ∧
      (c.is_valid_exec now).1 = c.is_valid now := by
  intro c now
  unfold DiscountCode.is_valid_exec DiscountCode.is_valid
  rcases c.usage_limit with _ | l <;>
    by_cases h : (c.valid_from ≤ now ∧ now ≤ c.valid_to) <;>
      simp [h] <;> by_cases h2 : c.used_count < l <;> simp [h2]

/-- Claim C10: `DiscountCode.is_valid` never reads the referenced `Discount`
(replacing the discount leaves validity unchanged), and there is a
concrete state and time at which a code is valid while its associated
discount is not active. -/
theorem discountCode_valid_independent_of_discount :
    (∀ (c : DiscountCode) (d : Discount) (now : Int),
      DiscountCode.is_valid { c with discount := d } now = c.is_valid now) ∧
    ∃ (c : DiscountCode) (now : Int),
      c.is_valid now = true ∧ c.discount.is_active now = false := by
  constructor
  · intro c d now; rfl
  · exact ⟨cLate, 35, by decide, by decide⟩

/-- `insertDesc` never produces the empty list. -/
theorem insertDesc_ne_nil (d : Discount) (ys : List Discount) :
    insertDesc d ys ≠ [] := by
  cases ys with
  | nil => simp [insertDesc]
  | cons e es =>
    by_cases h : d.percentage < e.percentage <;> simp [insertDesc, h]

/-- Head of an insertion into a nonempty list: the incoming element wins
unless the current head is strictly greater. -/
theorem head_insertDesc_cons (d e : Discount) (es : List Discount) :
    (insertDesc d (e :: es)).head? =
      some (if d.percentage < e.percentage then e else d) := by
  by_cases h : d.percentage < e.percentage <;> simp [insertDesc, h]

/-- The sort of a nonempty list is nonempty. -/
theorem sortDesc_cons_ne_nil (d : Discount) (ds : List Discount) :
    sortByPercentageDesc (d :: ds) ≠ [] := by
  show insertDesc d (sortByPercentageDesc ds) ≠ []
  exact insertDesc_ne_nil d _

/-- The head of the stable descending sort is the first maximum of the
input. -/
theorem sortDesc_head (d : Discount) (ds : List Discount) :
    (sortByPercentageDesc (d :: ds)).head? = some (firstMax1 d ds) := by
  induction ds generalizing d with
  | nil => rfl
  | cons e es ih =>
    show (insertDesc d (sortByPercentageDesc (e :: es))).head? = _
    cases hs : sortByPercentageDesc (e :: es) with
    | nil => exact absurd hs (sortDesc_cons_ne_nil e es)
    | cons a t =>
      have ha : a = firstMax1 e es := by
        have h2 := ih e
        rw [hs] at h2
        exact Option.some.inj h2
      rw [head_insertDesc_cons, ha]
      by_cases h : d.percentage < (firstMax1 e es).percentage <;>
        simp [firstMax1, h]

/-- Every element of `d :: ds` has percentage at most that of
`firstMax1 d ds`. -/
theorem firstMax1_le (d : Discount) (ds : List Discount) :
    ∀ e ∈ d :: ds, e.percentage ≤ (firstMax1 d ds).percentage := by
  induction ds generalizing d with
  | nil =>
    intro e he
    rw [List.mem_singleton] at he
    subst he
    exact le_refl _
  | cons f fs ih =>
    intro e he
    simp only [firstMax1]
    rcases List.mem_cons.mp he with heq | he2
    · rw [heq]
      by_cases h : d.percentage < (firstMax1 f fs).percentage
      · rw [if_pos h]; exact le_of_lt h
      · rw [if_neg h]
    · have hle := ih f e he2
      by_cases h : d.percentage < (firstMax1 f fs).percentage
      · rw [if_pos h]; exact hle
      · rw [if_neg h]; exact le_trans hle (le_of_not_lt h)

/-- `firstMax1 d ds` splits `d :: ds` as `l₁ ++ firstMax1 d ds :: l₂`
with everything before it strictly smaller and everything after it no
greater: it is the first element attaining the maximum. -/
theorem firstMax1_decomp (d : Discount) (ds : List Discount) :
    ∃ l₁ l₂, d :: ds = l₁ ++ firstMax1 d ds :: l₂ ∧
      (∀ e ∈ l₁, e.percentage < (firstMax1 d ds).percentage) ∧
      (∀ e ∈ l₂, e.percentage ≤ (firstMax1 d ds).percentage) := by
  induction ds generalizing d with
  | nil => exact ⟨[], [], rfl, by simp, by simp⟩
  | cons f fs ih =>
    have hunf : firstMax1 d (f :: fs)
        = if d.percentage < (firstMax1 f fs).percentage
          then firstMax1 f fs else d := rfl
    by_cases h : d.percentage < (firstMax1 f fs).percentage
    · rw [hunf, if_pos h]
      obtain ⟨l₁, l₂, hsplit, h1, h2⟩ := ih f
      refine ⟨d :: l₁, l₂, ?_, ?_, h2⟩
      · rw [List.cons_append, ← hsplit]
      · intro e he
        rcases List.mem_cons.mp he with heq | he2
        · rw [heq]; exact h
        · exact h1 e he2
    · rw [hunf, if_neg h]
      refine ⟨[], f :: fs, rfl, by simp, ?_⟩
      intro e he
      exact le_trans (firstMax1_le f fs e he) (le_of_not_lt h)

/-- A list whose head is `m` has `[m]` as its one-element prefix. -/
theorem take_one_of_head (xs : List Discount) (m : Discount)
    (h : xs.head? = some m) : xs.take 1 = [m] := by
  cases xs with
  | nil => cases h
  | cons a t =>
    obtain rfl : a = m := Option.some.inj h
    rfl

/-- Combined specification of `(sortByPercentageDesc xs).take 1` on a
nonempty input: it is the singleton of the first maximum of `xs`. -/
theorem sortDesc_take_spec (xs : List Discount) (hne : xs ≠ []) :
    ∃ m, (sortByPercentageDesc xs).take 1 = [m] ∧
      ∃ l₁ l₂, xs = l₁ ++ m :: l₂ ∧
        (∀ e ∈ l₁, e.percentage < m.percentage) ∧
        (∀ e ∈ l₂, e.percentage ≤ m.percentage) := by
  cases xs with
  | nil => exact absurd rfl hne
  | cons d ds =>
    exact ⟨firstMax1 d ds,
      take_one_of_head _ _ (sortDesc_head d ds), firstMax1_decomp d ds⟩

/-- Claim C1: for every product and time `now`, `Product.available_discount`
returns a singleton holding a discount of maximal percentage among the
active product-attached and category-attached discounts, and the empty
list when none is active; on the concrete example, with a 10% product
discount and a 15% category discount both active it returns the 15% one. -/
theorem available_discount_spec :
    (∀ (p : Product) (now : Int),
      ((p.discounts ++ p.category.discounts).filter (activeAt now) = [] →
        p.available_discount now = []) ∧
      (∀ d, d ∈ (p.discounts ++ p.category.discounts).filter (activeAt now) →
        ∃ m, p.available_discount now = [m] ∧
          m ∈ (p.discounts ++ p.category.discounts).filter (activeAt now) ∧
          ∀ e ∈ (p.discounts ++ p.category.discounts).filter (activeAt now),
            e.percentage ≤ m.percentage)) ∧
    prodA.available_discount 50 = [dFifteen] := by
  refine ⟨fun p now => ?_, by decide⟩
  have hsplit : (p.discounts ++ p.category.discounts).filter (activeAt now)
      = p.discounts.filter (activeAt now) ++
        p.category.discounts.filter (activeAt now) :=
    List.filter_append _ _
  constructor
  · intro h
    rw [hsplit] at h
    unfold Product.available_discount
    rw [h]
    rfl
  · intro d hd
    have hne : p.discounts.filter (activeAt now) ++
        p.category.discounts.filter (activeAt now) ≠ [] := by
      rw [← hsplit]
      exact List.ne_nil_of_mem hd
    obtain ⟨m, hm, l₁, l₂, hdec, _h1, h2⟩ := sortDesc_take_spec _ hne
    refine ⟨m, hm, ?_, ?_⟩
    · rw [hsplit, hdec]
      exact List.mem_append_right _ (List.mem_cons_self _ _)
    · intro e he
      rw [hsplit, hdec] at he
      rcases List.mem_append.mp he with he1 | he1
    
      · exact le_of_lt (_h1 e he1)
      · rcases List.mem_cons.mp he1 with heq | he1
        · rw [heq]
        · exact h2 e he1

/-- Witness for C1 at the concrete product `prodA` at time 50: the active
10% product discount is present, so the function returns a singleton of
an active discount of maximal percentage. -/
theorem available_discount_spec_witness :
    ∃ m, prodA.available_discount 50 = [m] ∧
      m ∈ (prodA.discounts ++ prodA.category.discounts).filter (activeAt 50) ∧
      ∀ e ∈ (prodA.discounts ++ prodA.category.discounts).filter (activeAt 50),
        e.percentage ≤ m.percentage :=
  (available_discount_spec.1 prodA 50).2 dTen (by decide)

/-- Claim C5: when `Product.available_discount` returns `[m]`, the list of
active discounts in enumeration order (product-attached first, then
category-attached) splits as `l₁ ++ m :: l₂` with everything before `m`
strictly below `m`'s percentage and everything after no greater: the
stable sort keeps the first discount of maximal percentage.  On the
concrete tie (product 15% vs category 15%) the product-attached one is
returned. -/
theorem available_discount_tie_stable :
    (∀ (p : Product) (now : Int) (m : Discount),
      p.available_discount now = [m] →
      ∃ l₁ l₂,
        p.discounts.filter (activeAt now) ++
            p.category.discounts.filter (activeAt now) = l₁ ++ m :: l₂ ∧
        (∀ e ∈ l₁, e.percentage < m.percentage) ∧
        (∀ e ∈ l₂, e.percentage ≤ m.percentage)) ∧
    prodTie.available_discount 50 = [dFifteen] := by
  refine ⟨fun p now m h => ?_, by decide⟩
  unfold Product.available_discount at h
  by_cases hne : p.discounts.filter (activeAt now) ++
      p.category.discounts.filter (activeAt now) = []
  · rw [hne] at h
    cases h
  · obtain ⟨m', hm', l₁, l₂, hdec, h1, h2⟩ := sortDesc_take_spec _ hne
    rw [hm'] at h
    obtain rfl : m' = m := List.head_eq_of_cons_eq h
    exact ⟨l₁, l₂, hdec, h1, h2⟩

/-- Witness for C5 at the concrete product `prodTie` at time 50: both its
own 15% discount and its category's 15% discount are active, and the
returned discount is the product-attached one, first in enumeration
order. -/
theorem available_discount_tie_stable_witness :
    ∃ l₁ l₂,
      prodTie.discounts.filter (activeAt 50) ++
          prodTie.category.discounts.filter (activeAt 50)
        = l₁ ++ dFifteen :: l₂ ∧
      (∀ e ∈ l₁, e.percentage < dFifteen.percentage) ∧
      (∀ e ∈ l₂, e.percentage ≤ dFifteen.percentage) :=
  available_discount_tie_stable.1 prodTie 50 dFifteen (by decide)

/-- Claim C4: `Product.overview` returns the arithmetic mean of the
product's review ratings together with their count, `(0, 0)` when there
are no reviews, and `(4, 3)` for ratings [5, 3, 4]. -/
theorem product_overview_spec :
    (∀ p : Product, p.reviews ≠ [] →
      p.overview =
        ((p.reviews.map (fun r => (r.rating : ℚ))).sum / (p.reviews.length : ℚ),
          p.reviews.length)) ∧
    (∀ p : Product, p.reviews = [] → p.overview = (0, 0)) ∧
    prodA.overview = (4, 3) := by
  refine ⟨?_, ?_, by simp [Product.overview, prodA]; norm_num⟩
  · intro p h
    unfold Product.overview
    cases hr : p.reviews with
    | nil => exact absurd hr h
    | cons a t => simp [hr]
  · intro p h
    unfold Product.overview
    simp [h]

/-- Witness for C4 at the concrete product `prodA` (ratings [5, 3, 4]):
the overview is the mean of the ratings paired with their count. -/
theorem product_overview_spec_witness :
    prodA.overview =
      ((prodA.reviews.map (fun r => (r.rating : ℚ))).sum /
          (prodA.reviews.length : ℚ),
        prodA.reviews.length) :=
  product_overview_spec.1 prodA (by decide)

/-- Every reachable `ProductLike` table is pairwise distinct on the
(user, product) pair: inserts are constraint-checked and deletions only
remove rows. -/
theorem likeReachable_pairwise (s : List ProductLikeRow)
    (h : LikeReachable s) :
    List.Pairwise (fun a b => ¬(a.user = b.user ∧ a.product = b.product)) s := by
  induction h with
  | empty => exact List.Pairwise.nil
  | create s r _ ih =>
    unfold createProductLike
    by_cases hc : s.any (fun q => q.user == r.user && q.product == r.product)
        = true
    · simpa [hc] using ih
    · simp only [hc, if_false, Bool.false_eq_true]
      rw [List.pairwise_append]
      refine ⟨ih, List.pairwise_singleton _ _, ?_⟩
      intro a ha b hb
      rw [List.mem_singleton] at hb
      subst hb
      rintro ⟨h1, h2⟩
      apply hc
      rw [List.any_eq_true]
      exact ⟨a, ha, by simp [h1, h2]⟩
  | delete s cond _ ih =>
    exact List.Pairwise.sublist (List.filter_sublist s) ih

/-- In a table pairwise distinct on (user, product), at most one row
matches a given pair. -/
theorem like_filter_length_le_one (s : List ProductLikeRow) (u q : Nat)
    (hp : List.Pairwise
      (fun a b => ¬(a.user = b.user ∧ a.product = b.product)) s) :
    (s.filter (fun r => r.user == u && r.product == q)).length ≤ 1 := by
  induction s with
  | nil => simp
  | cons a t ih =>
    rw [List.pairwise_cons] at hp
    obtain ⟨ha, ht⟩ := hp
    by_cases h : (a.user == u && a.product == q) = true
    · have ht0 : t.filter (fun r => r.user == u && r.product == q) = [] := by
        rw [List.filter_eq_nil_iff]
        intro b hb hbeq
        apply ha b hb
        simp only [Bool.and_eq_true, beq_iff_eq] at h hbeq
        exact ⟨h.1.trans hbeq.1.symm, h.2.trans hbeq.2.symm⟩
      simp [List.filter_cons, h, ht0]
    · simp only [List.filter_cons, h, if_false]
      exact ih ht

/-- Claim C7: in every reachable `ProductLike` table each (user, product)
pair occupies at most one row, and inserting a row whose pair is already
present is rejected with the table unchanged. -/
theorem productLike_unique :
    ∀ s, LikeReachable s →
      (∀ u q : Nat,
        (s.filter (fun r => r.user == u && r.product == q)).length ≤ 1) ∧
      (∀ r : ProductLikeRow,
        (∃ x ∈ s, x.user = r.user ∧ x.product = r.product) →
        createProductLike s r = (false, s)) := by
  intro s hs
  refine ⟨fun u q =>
    like_filter_length_le_one s u q (likeReachable_pairwise s hs), ?_⟩
  rintro r ⟨x, hx, h1, h2⟩
  unfold createProductLike
  have hany : s.any (fun q => q.user == r.user && q.product == r.product)
      = true := by
    rw [List.any_eq_true]
    exact ⟨x, hx, by simp [h1, h2]⟩
  rw [if_pos hany]

/-- Witness for C7 on the concrete table `likeS1 = [(1, 2)]`: inserting a
second like for the pair (1, 2) fails and leaves the table unchanged. -/
theorem productLike_unique_witness :
    createProductLike likeS1 ⟨1, 2, 9⟩ = (false, likeS1) :=
  (productLike_unique likeS1
      (LikeReachable.create [] ⟨1, 2, 0⟩ LikeReachable.empty)).2
    ⟨1, 2, 9⟩ ⟨⟨1, 2, 0⟩, by decide, rfl, rfl⟩

/-- Every reachable `CartItem` table is pairwise distinct on the
(cart, product) pair. -/
theorem cartReachable_pairwise (s : List CartItemRow)
    (h : CartReachable s) :
    List.Pairwise (fun a b => ¬(a.cart = b.cart ∧ a.product = b.product)) s := by
  induction h with
  | empty => exact List.Pairwise.nil
  | create s r _ ih =>
    unfold createCartItem
    by_cases hc : s.any (fun q => q.cart == r.cart && q.product == r.product)
        = true
    · simpa [hc] using ih
    · simp only [hc, if_false, Bool.false_eq_true]
      rw [List.pairwise_append]
      refine ⟨ih, List.pairwise_singleton _ _, ?_⟩
      intro a ha b hb
      rw [List.mem_singleton] at hb
      subst hb
      rintro ⟨h1, h2⟩
      apply hc
      rw [List.any_eq_true]
      exact ⟨a, ha, by simp [h1, h2]⟩
  | delete s cond _ ih =>
    exact List.Pairwise.sublist (List.filter_sublist s) ih

/-- In a table pairwise distinct on (cart, product), at most one row
matches a given pair. -/
theorem cart_filter_length_le_one (s : List CartItemRow) (u q : Nat)
    (hp : List.Pairwise
      (fun a b => ¬(a.cart = b.cart ∧ a.product = b.product)) s) :
    (s.filter (fun r => r.cart == u && r.product == q)).length ≤ 1 := by
  induction s with
  | nil => simp
  | cons a t ih =>
    rw [List.pairwise_cons] at hp
    obtain ⟨ha, ht⟩ := hp
    by_cases h : (a.cart == u && a.product == q) = true
    · have ht0 : t.filter (fun r => r.cart == u && r.product == q) = [] := by
        rw [List.filter_eq_nil_iff]
        intro b hb hbeq
        apply ha b hb
        simp only [Bool.and_eq_true, beq_iff_eq] at h hbeq
        exact ⟨h.1.trans hbeq.1.symm, h.2.trans hbeq.2.symm⟩
      simp [List.filter_cons, h, ht0]
    · simp only [List.filter_cons, h, if_false]
      exact ih ht

/-- Claim C8: in every reachable `CartItem` table each (cart, product)
pair occupies at most one row, and inserting a row whose pair is already
present is rejected with the table unchanged. -/
theorem cartItem_unique :
    ∀ s, CartReachable s →
      (∀ u q : Nat,
        (s.filter (fun r => r.cart == u && r.product == q)).length ≤ 1) ∧
      (∀ r : CartItemRow,
        (∃ x ∈ s, x.cart = r.cart ∧ x.product = r.product) →
        createCartItem s r = (false, s)) := by
  intro s hs
  refine ⟨fun u q =>
    cart_filter_length_le_one s u q (cartReachable_pairwise s hs), ?_⟩
  rintro r ⟨x, hx, h1, h2⟩
  unfold createCartItem
  have hany : s.any (fun q => q.cart == r.cart && q.product == r.product)
      = true := by
    rw [List.any_eq_true]
    exact ⟨x, hx, by simp [h1, h2]⟩
  rw [if_pos hany]

/-- Witness for C8 on the concrete table `cartS1 = [(7, 2)]`: inserting a
second item for the pair (7, 2) fails and leaves the table unchanged. -/
theorem cartItem_unique_witness :
    createCartItem cartS1 ⟨7, 2, 3, 9⟩ = (false, cartS1) :=
  (cartItem_unique cartS1
      (CartReachable.create [] ⟨7, 2, 1, 0⟩ CartReachable.empty)).2
    ⟨7, 2, 3, 9⟩ ⟨⟨7, 2, 1, 0⟩, by decide, rfl, rfl⟩

/-- Claim C9: deleting a category nulls the `parent` of each surviving
child while leaving every other column of the survivors unchanged, does
not delete the children, and removes exactly the deleted id. -/
theorem category_delete_set_null :
    ∀ (s : List CategoryRow) (cid : Nat) (c : CategoryRow),
      c ∈ s → c.id ≠ cid →
      (∃ c' ∈ deleteCategory s cid,
        c'.id = c.id ∧ c'.name = c.name ∧ c'.description = c.description ∧
        c'.created_at = c.created_at ∧
        c'.parent = if c.parent = some cid then none else c.parent) ∧
      ∀ c' ∈ deleteCategory s cid, c'.id ≠ cid := by
  intro s cid c hc hne
  constructor
  · have hmem : c ∈ s.filter (fun c0 => !(c0.id == cid)) := by
      rw [List.mem_filter]
      exact ⟨hc, by simp [hne]⟩
    refine ⟨(fun c0 =>
        if c0.parent = some cid then { c0 with parent := none } else c0) c,
      List.mem_map_of_mem _ hmem, ?_⟩
    by_cases hp : c.parent = some cid <;> simp [hp]
  · intro c' hc'
    unfold deleteCategory at hc'
    rw [List.mem_map] at hc'
    obtain ⟨c0, hc0, hmap⟩ := hc'
    rw [List.mem_filter] at hc0
    have hid : c0.id ≠ cid := by simpa using hc0.2
    by_cases hp : c0.parent = some cid
    · rw [← hmap]
      simpa [hp] using hid
    · rw [← hmap]
      simpa [hp] using hid

/-- Witness for C9 on the concrete table `catS1`: after deleting category
1, its child (category 2) survives with `parent = null` and all other
columns intact, and no row with id 1 remains. -/
theorem category_delete_set_null_witness :
    (∃ c' ∈ deleteCategory catS1 1,
      c'.id = catChild.id ∧ c'.name = catChild.name ∧
      c'.description = catChild.description ∧
      c'.created_at = catChild.created_at ∧
      c'.parent = if catChild.parent = some 1 then none else catChild.parent) ∧
    ∀ c' ∈ deleteCategory catS1 1, c'.id ≠ 1 :=
  category_delete_set_null catS1 1 catChild (by decide) (by decide)
